import Mathlib

/-!
Verification of the customer-segmentation pipeline (Online Retail II).

This file gives a shallow embedding of the pipeline's core stages:

* `etl/build_rfm.py`: column-name resolution (`_normalize_columns`), row
  cleaning, line totals, snapshot date, and the per-customer RFM
  aggregation (recency / frequency / monetary / dominant country).
* `model/train_cluster_model.py`: the k-selection control flow (fixed-k and
  the auto-k silhouette scan), the feature scaling round-trip, and the
  segment-naming heuristic with its collision resolution.

Dates are modelled as integer timestamps in seconds (one day = 86400).
Numeric cell values are `Option Rat` (with `none` playing the role of a
null/NaT produced by coercion).  Silhouette scores are abstracted as a
function from the cluster count to a rational score, while the validation
performed by the fitted library calls (scaler, k-means, silhouette) is
modelled explicitly as `Except` failures.  The feature encoder is modelled
over the reals.
-/

set_option maxRecDepth 8192

namespace OnlineRetail

/-- A canonical transaction row, as it stands right after the type
conversions of `build_rfm.main` (lines 102-106): the invoice id before
`astype(str)` (so a missing id is still visible as `none`), coerced dates
and numerics where `none` models NaT/NaN, and the country cell. -/
structure CanonRow where
  invoiceNoRaw : Option String
  invoiceDate : Option Nat
  customerID : Option Rat
  quantity : Option Rat
  unitPrice : Option Rat
  country : Option String
  deriving DecidableEq

/-- `astype(str)` on the invoice column: a missing value is stringified to
`"nan"`. -/
def invoiceStr : Option String → String
  | none => "nan"
  | some s => s

/-- The `dropna(subset=["InvoiceDate", "CustomerID", "UnitPrice", "Quantity"])`
predicate: all four critical fields are non-null after coercion. -/
def validRow (r : CanonRow) : Bool :=
  r.invoiceDate.isSome && r.customerID.isSome && r.unitPrice.isSome && r.quantity.isSome

/-- `df["InvoiceNo"].str.startswith("C")`: the cancellation/return marker is
the prefix `"C"` on the stringified invoice id. -/
def isCancel (r : CanonRow) : Bool :=
  (invoiceStr r.invoiceNoRaw).data.head? == some 'C'

/-- `df_clean["Quantity"] > 0` (a null compares as not-greater, as NaN does). -/
def posQty (r : CanonRow) : Bool :=
  match r.quantity with
  | some q => decide (0 < q)
  | none => false

/-- `df_clean["UnitPrice"] > 0`. -/
def posPrice (r : CanonRow) : Bool :=
  match r.unitPrice with
  | some p => decide (0 < p)
  | none => false

/-- The conjunction of all cleaning predicates. -/
def cleanPred (r : CanonRow) : Bool :=
  validRow r && !isCancel r && (posQty r && posPrice r)

/-- The cleaning stage as written (lines 119-122): three successive filters,
null critical fields first, then the cancellation mask, then positivity. -/
def cleanRows (rows : List CanonRow) : List CanonRow :=
  ((rows.filter validRow).filter fun r => !isCancel r).filter fun r => posQty r && posPrice r

/-- `LineTotal = Quantity * UnitPrice` (line 125). -/
def lineTotal (r : CanonRow) : Rat :=
  r.quantity.getD 0 * r.unitPrice.getD 0

/-- One day, in the seconds with which timestamps are modelled. -/
def secondsPerDay : Nat := 86400

/-- `df_clean["InvoiceDate"].max()`: `none` models the NaT that pandas
returns on an empty column. -/
def maxDate? (rows : List CanonRow) : Option Nat :=
  match rows.filterMap (·.invoiceDate) with
  | [] => none
  | ds => some (ds.foldr max 0)

/-- The rows of one customer inside the cleaned set, in cleaned-set order
(`groupby` preserves within-group order). -/
def custRows (rows : List CanonRow) (c : Rat) : List CanonRow :=
  rows.filter fun r => r.customerID == some c

/-- The latest invoice date of one customer (`x.max()` inside the `agg`). -/
def custMaxDate (rs : List CanonRow) : Nat :=
  (rs.filterMap (·.invoiceDate)).foldr max 0

/-- `int((snapshot_date - x.max()).days)`: the whole-day part of the
difference. -/
def recencyOf (snap : Nat) (rs : List CanonRow) : Nat :=
  (snap - custMaxDate rs) / secondsPerDay

/-- `("InvoiceNo", "nunique")`: the number of distinct stringified invoice
ids among the customer's rows. -/
def frequencyOf (rs : List CanonRow) : Nat :=
  ((rs.map fun r => invoiceStr r.invoiceNoRaw).dedup).length

/-- `("LineTotal", "sum")`. -/
def monetaryOf (rs : List CanonRow) : Rat :=
  (rs.map lineTotal).sum

/-- Python string comparison on char lists: lexicographic by code point. -/
def listLtB : List Char → List Char → Bool
  | [], [] => false
  | [], _ :: _ => true
  | _ :: _, [] => false
  | a :: as, b :: bs =>
    if a.toNat < b.toNat then true
    else if b.toNat < a.toNat then false
    else listLtB as bs

/-- Python `<` on strings. -/
def strLtB (s t : String) : Bool := listLtB s.data t.data

/-- Insert into a list sorted ascending w.r.t. a boolean strict order. -/
def insertBy (lt : α → α → Bool) (v : α) : List α → List α
  | [] => [v]
  | w :: ws => if lt w v then w :: insertBy lt v ws else v :: w :: ws

/-- Insertion sort, ascending w.r.t. a boolean strict order.  Models the
ascending sorts performed by pandas (`Series.mode` sorts its result, and
`groupby` sorts its keys). -/
def sortByLt (lt : α → α → Bool) (xs : List α) : List α :=
  xs.foldr (insertBy lt) []

/-- Number of occurrences of a country value inside a customer's rows. -/
def countOf (xs : List String) (v : String) : Nat :=
  (xs.filter fun w => w == v).length

/-- The highest occurrence count. -/
def maxCount (xs : List String) : Nat :=
  ((xs.dedup).map (countOf xs)).foldr max 0

/-- The set of values attaining the highest count (pandas `Series.mode`
before its final sort, nulls already dropped). -/
def modeValues (xs : List String) : List String :=
  (xs.dedup).filter fun v => countOf xs v == maxCount xs

/-- `Series.mode` proper: the most frequent values, sorted ascending. -/
def modeSorted (xs : List String) : List String :=
  sortByLt strLtB (modeValues xs)

/-- `lambda x: x.mode().iloc[0] if len(x.mode()) else x.iloc[0]` over the
customer's country cells (mode drops nulls; the fallback is the first cell). -/
def dominantCountry (rs : List CanonRow) : Option String :=
  match modeSorted (rs.filterMap (·.country)) with
  | m :: _ => some m
  | [] =>
    match rs with
    | r :: _ => r.country
    | [] => none

/-- Boolean strict order on the rationals, for the sorts. -/
def ratLtB (a b : Rat) : Bool := decide (a < b)

/-- `groupby("CustomerID")` keys: the distinct customer ids, ascending. -/
def customerKeys (rows : List CanonRow) : List Rat :=
  sortByLt ratLtB ((rows.filterMap (·.customerID)).dedup)

/-- One row of `customers_rfm.csv`. -/
structure RfmRecord where
  customerID : Rat
  recencyDays : Nat
  frequencyInvoices : Nat
  monetaryValue : Rat
  country : Option String
  deriving DecidableEq

/-- The aggregated record of one customer (the `agg` of lines 130-139). -/
def mkRfmRecord (cl : List CanonRow) (snap : Nat) (c : Rat) : RfmRecord :=
  let rs := custRows cl c
  { customerID := c
    recencyDays := recencyOf snap rs
    frequencyInvoices := frequencyOf rs
    monetaryValue := monetaryOf rs
    country := dominantCountry rs }

/-- The persisted artifacts of `build_rfm.main`: the cleaned-transactions
table (rows with their line totals), the RFM table, and the snapshot date
(`none` models the NaT arising from an empty cleaned set). -/
structure EtlOutput where
  cleanTable : List (CanonRow × Rat)
  rfmTable : List RfmRecord
  snapshotDate : Option Nat
  deriving DecidableEq

/-- Lines 119-139 and 146-147 of `build_rfm.py`: clean, compute the
snapshot date as one day past the global maximum invoice date, aggregate
per customer, and emit the tables that are written to disk. -/
def buildRfm (rows : List CanonRow) : EtlOutput :=
  let cl := cleanRows rows
  let table := cl.map fun r => (r, lineTotal r)
  match maxDate? cl with
  | none => { cleanTable := table, rfmTable := [], snapshotDate := none }
  | some m =>
    { cleanTable := table
      rfmTable := (customerKeys cl).map (mkRfmRecord cl (m + secondsPerDay))
      snapshotDate := some (m + secondsPerDay) }

/-- Python `str.strip()`. -/
def stripChars (l : List Char) : List Char :=
  ((l.dropWhile Char.isWhitespace).reverse.dropWhile Char.isWhitespace).reverse

/-- `str(c).strip()` applied to a column name (line 54). -/
def strip (s : String) : String := ⟨stripChars s.data⟩

/-- The characters removed by the normalization. -/
def normDrop (c : Char) : Bool := c == ' ' || c == '_'

/-- `cand.lower().replace(" ", "").replace("_", "")`: the key under which a
candidate column name is looked up. -/
def candKey (s : String) : String :=
  ⟨(s.data.map Char.toLower).filter fun c => !normDrop c⟩

/-- `str(c).strip().lower().replace(" ", "").replace("_", "")`: the key of a
raw column (line 57). -/
def colKey (s : String) : String := candKey (strip s)

/-- The error raised when required columns cannot be resolved: it carries
the missing canonical field names and the full list of (stripped) columns
found. -/
structure SchemaError where
  missing : List String
  found : List String
  deriving DecidableEq

/-- The lookup dict of line 57: on key collisions the later column wins
(dict-comprehension overwrite), hence `getLast?` of the matching columns. -/
def lookupGet (cols : List String) (k : String) : Option String :=
  (cols.filter fun c => colKey c == k).getLast?

/-- `pick(*candidates)` (lines 59-64): the first candidate whose normalized
key appears among the normalized raw columns wins. -/
def pick (cols : List String) : List String → Option String
  | [] => none
  | cand :: rest =>
    match lookupGet cols (candKey cand) with
    | some c => some c
    | none => pick cols rest

/-- The candidate lists of lines 67-74, in source order. -/
def fieldCandidates : List (String × List String) :=
  [("InvoiceNo", ["InvoiceNo", "Invoice", "InvoiceNo."]),
   ("StockCode", ["StockCode", "Stock Code"]),
   ("Description", ["Description"]),
   ("Quantity", ["Quantity", "Qty"]),
   ("InvoiceDate", ["InvoiceDate", "Invoice Date"]),
   ("UnitPrice", ["UnitPrice", "Price", "Unit Price"]),
   ("CustomerID", ["CustomerID", "Customer ID", "CustomerId"]),
   ("Country", ["Country"])]

/-- `_normalize_columns` (lines 51-84): strip the raw columns, resolve every
canonical field through `pick`, and fail with the missing field names and
the full column list when any field is unresolved. -/
def resolveSchema (rawCols : List String) : Except SchemaError (List (String × Option String)) :=
  let cols := rawCols.map strip
  let mapping := fieldCandidates.map fun fc => (fc.1, pick cols fc.2)
  let missing := (mapping.filter fun p => p.2.isNone).map Prod.fst
  if missing.isEmpty then .ok mapping else .error { missing := missing, found := cols }

/-- The only error `build_rfm.main` raises after reading the file: the
schema resolution failure. -/
inductive EtlError where
  | schema (e : SchemaError)
  deriving DecidableEq

/-- `build_rfm.main` on an input table: resolve the schema first (aborting
before any row-level processing on failure), then clean, aggregate and
persist.  There is no other failure path: an empty cleaned set flows
through to empty persisted tables. -/
def buildRfmPipeline (rawCols : List String) (rows : List CanonRow) : Except EtlError EtlOutput :=
  match resolveSchema rawCols with
  | .error e => .error (.schema e)
  | .ok _ => .ok (buildRfm rows)

/-- Whether some raw column matches a candidate, exactly, after
normalization of both sides. -/
def candMatches (cols : List String) (cand : String) : Bool :=
  cols.any fun c => colKey c == candKey cand

/-- The canonical fields none of whose candidate variants matches any raw
column. -/
def unmatchedFields (cols : List String) : List String :=
  (fieldCandidates.filter fun fc => fc.2.all fun cand => !candMatches cols cand).map Prod.fst

/-! ### The clustering script (`model/train_cluster_model.py`) -/

/-- The `ValueError`s raised inside the fitted-library calls of
`train_cluster_model.main`: fitting the scaler on zero samples, a
non-positive or too-large `n_clusters` for `KMeans.fit`, and a label count
outside `[2, n_samples - 1]` for `silhouette_score`. -/
inductive SkError where
  | emptyData
  | badClusterCount (k : Nat)
  | tooFewSamples (n k : Nat)
  | badLabelCount (n k : Nat)
  deriving DecidableEq

/-- `StandardScaler().fit_transform` refuses an empty sample. -/
def scalerCheck (n : Nat) : Except SkError Unit :=
  if n = 0 then .error .emptyData else .ok ()

/-- `KMeans(n_clusters=k).fit_predict` on `n` samples: `k` must be at least
1 and at most `n`. -/
def kmeansCheck (n k : Nat) : Except SkError Unit :=
  if k < 1 then .error (.badClusterCount k)
  else if n < k then .error (.tooFewSamples n k)
  else .ok ()

/-- `silhouette_score` validation on `n` samples in the regime of `n`
pairwise-distinct encoded records, where a successful `KMeans` fit leaves
no cluster empty and the label count equals the requested `k`: the label
count must satisfy `2 ≤ k ≤ n - 1`.  The general validation, in terms of
the label count a fit actually returns when records may coincide, is
`silLabelCheck` over `kmeansLabels` below. -/
def silCheck (n k : Nat) : Except SkError Unit :=
  if 2 ≤ k ∧ k + 1 ≤ n then .ok () else .error (.badLabelCount n k)

/-- `if score > best_score: best_score = score; best_k = k` (lines 145-147). -/
def scanStep (sil : Nat → Rat) (best : Nat × Rat) (k : Nat) : Nat × Rat :=
  if best.2 < sil k then (k, sil k) else best

/-- The pure value computed by the auto-k loop when every fit succeeds. -/
def scanBest (sil : Nat → Rat) : List Nat → Nat × Rat → Nat × Rat
  | [], best => best
  | k :: ks, best => scanBest sil ks (scanStep sil best k)

/-- The auto-k loop of lines 141-147: for each candidate `k` fit k-means,
score the fit, and keep the strictly best score; a library failure aborts
the run. -/
def autoScan (n : Nat) (sil : Nat → Rat) : List Nat → Nat × Rat → Except SkError (Nat × Rat)
  | [], best => .ok best
  | k :: ks, best =>
    match kmeansCheck n k with
    | .error e => .error e
    | .ok _ =>
      match silCheck n k with
      | .error e => .error e
      | .ok _ => autoScan n sil ks (scanStep sil best k)

/-- `range(2, 11)`: the candidate cluster counts of the auto-k search. -/
def kGrid : List Nat := List.range' 2 9

/-- Lines 137-155 of `train_cluster_model.main`: scale the `n` encoded
points, choose `k` (auto-k scan or the caller-supplied `argK`), and fit the
final model with the chosen `k`.  The silhouette score of each successful
fit is abstracted as `sil k`. -/
def trainSelect (n : Nat) (sil : Nat → Rat) (argK : Nat) (autoK : Bool) : Except SkError (Nat × Rat) :=
  match scalerCheck n with
  | .error e => .error e
  | .ok _ =>
    let sel : Except SkError (Nat × Rat) :=
      if autoK then autoScan n sil kGrid (argK, -1)
      else
        match kmeansCheck n argK with
        | .error e => .error e
        | .ok _ =>
          match silCheck n argK with
          | .error e => .error e
          | .ok _ => .ok (argK, sil argK)
    match sel with
    | .error e => .error e
    | .ok best =>
      match kmeansCheck n best.1 with
      | .error e => .error e
      | .ok _ => .ok best

/-- The number of distinct encoded feature records among the `n` customer
rows.  `log1p` and the fitted standardization map equal RFM triples to
equal encoded points and (being strictly monotone per dimension, with a
zero-variance dimension constant across all rows) distinct triples to
distinct points, so distinctness of the encoded points is distinctness of
the triples. -/
def nDistinct (X : List (Rat × Rat × Rat)) : Nat :=
  X.dedup.length

/-- The number of distinct labels `KMeans(n_clusters=k).fit_predict`
returns on the points `X` once its sample-count validation passes: sklearn
relocates empty clusters onto distinct points, so the fit ends with
`min k (number of distinct points)` non-empty clusters; when duplicates
make this smaller than `k` it emits only a `ConvergenceWarning`, not an
error. -/
def kmeansLabels (X : List (Rat × Rat × Rat)) (k : Nat) : Nat :=
  min k (nDistinct X)

/-- `silhouette_score` validation in terms of the label count the fit
actually returned: it must satisfy `2 ≤ labels ≤ n - 1`. -/
def silLabelCheck (n labels : Nat) : Except SkError Unit :=
  if 2 ≤ labels ∧ labels + 1 ≤ n then .ok () else .error (.badLabelCount n labels)

/-- The auto-k loop of lines 141-147 over the actual encoded records `X`,
with the label count of each fit given by `kmeansLabels`. -/
def autoScanX (X : List (Rat × Rat × Rat)) (sil : Nat → Rat) :
    List Nat → Nat × Rat → Except SkError (Nat × Rat)
  | [], best => .ok best
  | k :: ks, best =>
    match kmeansCheck X.length k with
    | .error e => .error e
    | .ok _ =>
      match silLabelCheck X.length (kmeansLabels X k) with
      | .error e => .error e
      | .ok _ => autoScanX X sil ks (scanStep sil best k)

/-- Lines 137-155 of `train_cluster_model.main` over the actual encoded
customer records `X` (one triple per customer row): scale, choose `k`
(auto-k scan or the caller-supplied `argK`), and fit the final model.
Unlike `trainSelect`, which describes the pairwise-distinct regime, this
model accounts for duplicate records collapsing clusters. -/
def trainSelectX (X : List (Rat × Rat × Rat)) (sil : Nat → Rat) (argK : Nat)
    (autoK : Bool) : Except SkError (Nat × Rat) :=
  match scalerCheck X.length with
  | .error e => .error e
  | .ok _ =>
    let sel : Except SkError (Nat × Rat) :=
      if autoK then autoScanX X sil kGrid (argK, -1)
      else
        match kmeansCheck X.length argK with
        | .error e => .error e
        | .ok _ =>
          match silLabelCheck X.length (kmeansLabels X argK) with
          | .error e => .error e
          | .ok _ => .ok (argK, sil argK)
    match sel with
    | .error e => .error e
    | .ok best =>
      match kmeansCheck X.length best.1 with
      | .error e => .error e
      | .ok _ => .ok best

/-- The silhouette scores of the spec's auto-k scenario: 0.41 at k = 2,
0.55 at k = 3, 4, 5, lower beyond. -/
def silExample : Nat → Rat := fun k =>
  if k = 2 then mkRat 41 100 else if k ≤ 5 then mkRat 55 100 else 0

/-- Three customers' RFM records, two of them identical: the encoded
points contain a duplicate, so a k = 3 fit returns only 2 distinct
labels. -/
def dupPoints : List (Rat × Rat × Rat) :=
  [(1, 1, 10), (1, 1, 10), (5, 2, 30)]

/-! ### The segment labeler -/

/-- One row of the scored customer table handed to
`_segment_names_by_cluster`. -/
structure ScoredRow where
  customerID : Rat
  recency : Rat
  frequency : Rat
  monetary : Rat
  cluster : Nat
  deriving DecidableEq

/-- Boolean strict order on the naturals, for the key sort. -/
def natLtB (a b : Nat) : Bool := decide (a < b)

/-- `groupby("cluster")` keys: distinct cluster ids, ascending. -/
def clusterIds (rows : List ScoredRow) : List Nat :=
  sortByLt natLtB ((rows.map (·.cluster)).dedup)

/-- The rows of one cluster. -/
def clusterRows (rows : List ScoredRow) (cl : Nat) : List ScoredRow :=
  rows.filter fun r => r.cluster == cl

/-- pandas median: mean of the two middle elements of the sorted values. -/
def medianQ (xs : List Rat) : Rat :=
  let s := sortByLt ratLtB xs
  match s.length with
  | 0 => 0
  | n => (s.getD ((n - 1) / 2) 0 + s.getD (n / 2) 0) / 2

/-- The per-cluster medians and customer count (the `agg` of lines 77-82). -/
structure ClusterStat where
  recMed : Rat
  freqMed : Rat
  monMed : Rat
  customers : Nat
  deriving DecidableEq

/-- The statistics row of one cluster. -/
def statsOf (rows : List ScoredRow) (cl : Nat) : ClusterStat :=
  let g := clusterRows rows cl
  { recMed := medianQ (g.map (·.recency))
    freqMed := medianQ (g.map (·.frequency))
    monMed := medianQ (g.map (·.monetary))
    customers := g.length }

/-- `rank(ascending=False, method="dense")`: one plus the number of
distinct values strictly greater. -/
def denseRankDesc (vals : List Rat) (v : Rat) : Nat :=
  ((vals.filter fun w => decide (v < w)).dedup).length + 1

/-- `rank(ascending=True, method="dense")`: one plus the number of distinct
values strictly smaller. -/
def denseRankAsc (vals : List Rat) (v : Rat) : Nat :=
  ((vals.filter fun w => decide (w < v)).dedup).length + 1

def championsLabel : String := "Champions"

def loyalLabel : String := "Loyal (Re-engage)"

def newPromisingLabel : String := "New / Promising"

def atRiskLabel : String := "At Risk / Lost"

/-- The four qualitative labels. -/
def labelStrings : List String :=
  [championsLabel, loyalLabel, newPromisingLabel, atRiskLabel]

/-- Lines 85-101: dense-rank the clusters by monetary and frequency
(descending) and recency (ascending) and pick the qualitative label. -/
def computedLabel (rows : List ScoredRow) (cl : Nat) : String :=
  let ids := clusterIds rows
  let mons := ids.map fun i => (statsOf rows i).monMed
  let freqs := ids.map fun i => (statsOf rows i).freqMed
  let recs := ids.map fun i => (statsOf rows i).recMed
  let st := statsOf rows cl
  let strong := decide (denseRankDesc mons st.monMed ≤ 2) && decide (denseRankDesc freqs st.freqMed ≤ 2)
  let recent := decide (denseRankAsc recs st.recMed ≤ 2)
  if strong && recent then championsLabel
  else if strong && !recent then loyalLabel
  else if !strong && recent then newPromisingLabel
  else atRiskLabel

/-- `f"{nm} ({cl})"`. -/
def appendId (nm : String) (cl : Nat) : String :=
  nm ++ " (" ++ Nat.repr cl ++ ")"

/-- The collision-resolution loop of lines 104-109: scanning in list order,
a name already kept plain by an earlier cluster is disambiguated by
appending the current cluster id. -/
def resolveNames : List (Nat × String) → List String → List (Nat × String)
  | [], _ => []
  | (cl, nm) :: rest, seen =>
    if nm ∈ seen then (cl, appendId nm cl) :: resolveNames rest seen
    else (cl, nm) :: resolveNames rest (nm :: seen)

/-- `_segment_names_by_cluster` (lines 68-111): assign each cluster, in
ascending cluster-id order, its computed label, then resolve collisions. -/
def segmentNamesByCluster (rows : List ScoredRow) : List (Nat × String) :=
  resolveNames ((clusterIds rows).map fun cl => (cl, computedLabel rows cl)) []

/-! ### The feature encoder -/

/-- The fitted scaling parameters of one dimension. -/
structure ScaleParams where
  mean : Real
  std : Real

/-- sklearn's `_handle_zeros_in_scale`: a zero standard deviation scales by
one instead of dividing by zero. -/
noncomputable def handleZeros (s : Real) : Real :=
  if s = 0 then 1 else s

/-- A per-customer RFM value triple, over the reals. -/
structure RfmTriple where
  recency : Real
  frequency : Real
  monetary : Real

/-- The fitted parameters of the three dimensions, persisted with the model
artifact. -/
structure EncParams where
  recP : ScaleParams
  freqP : ScaleParams
  monP : ScaleParams

/-- `np.log1p` then the fitted `StandardScaler` transform of one dimension
(lines 129-135). -/
noncomputable def encodeDim (p : ScaleParams) (x : Real) : Real :=
  (Real.log (1 + x) - p.mean) / handleZeros p.std

/-- The inverse transform followed by `np.expm1`. -/
noncomputable def decodeDim (p : ScaleParams) (z : Real) : Real :=
  Real.exp (z * handleZeros p.std + p.mean) - 1

/-- Encoding of a full RFM record. -/
noncomputable def encodeRfm (p : EncParams) (t : RfmTriple) : RfmTriple :=
  { recency := encodeDim p.recP t.recency
    frequency := encodeDim p.freqP t.frequency
    monetary := encodeDim p.monP t.monetary }

/-- Decoding of a full encoded record with the persisted parameters. -/
noncomputable def decodeRfm (p : EncParams) (t : RfmTriple) : RfmTriple :=
  { recency := decodeDim p.recP t.recency
    frequency := decodeDim p.freqP t.frequency
    monetary := decodeDim p.monP t.monetary }

/-- `StandardScaler` sample mean of one dimension. -/
noncomputable def fitMean (xs : List Real) : Real :=
  xs.sum / xs.length

/-- `StandardScaler` (population) standard deviation of one dimension. -/
noncomputable def fitStd (xs : List Real) : Real :=
  Real.sqrt ((xs.map fun x => (x - fitMean xs) ^ 2).sum / xs.length)

/-- Fit-and-persist of one dimension's parameters. -/
noncomputable def fitParams (xs : List Real) : ScaleParams :=
  { mean := fitMean xs, std := fitStd xs }

/-- Decimal reading of a digit string; recovers a natural number from its
`Nat.repr` digits. -/
def digitsVal (l : List Char) : Nat :=
  l.foldl (fun acc c => 10 * acc + (c.toNat - 48)) 0

/-! ### Concrete inputs used by counterexamples and witnesses -/

/-- Scored rows with two clusters of identical medians, forcing a
segment-label collision. -/
def scoredExample : List ScoredRow :=
  [{ customerID := 1, recency := 5, frequency := 10, monetary := 100, cluster := 0 },
   { customerID := 2, recency := 5, frequency := 10, monetary := 100, cluster := 1 }]

/-- The canonical column header, which resolves without error. -/
def canonicalCols : List String :=
  ["InvoiceNo", "StockCode", "Description", "Quantity", "InvoiceDate",
   "UnitPrice", "CustomerID", "Country"]

/-- A cancellation row: invoice id flagged with the `"C"` prefix. -/
def cancelOnlyRow : CanonRow :=
  { invoiceNoRaw := some "C536379"
    invoiceDate := some 864000
    customerID := some 14527
    quantity := some (-1)
    unitPrice := some 3
    country := some "United Kingdom" }

/-- A valid row whose customer sits in the United Kingdom. -/
def ukRow : CanonRow :=
  { invoiceNoRaw := some "536365"
    invoiceDate := some 864000
    customerID := some 15311
    quantity := some 2
    unitPrice := some 3
    country := some "United Kingdom" }

/-- A second valid row of the same customer, from France, on a distinct
invoice. -/
def franceRow : CanonRow :=
  { invoiceNoRaw := some "536412"
    invoiceDate := some 950400
    customerID := some 15311
    quantity := some 1
    unitPrice := some 5
    country := some "France" }

/-- A valid row with a missing invoice id. -/
def missingInvoiceRow : CanonRow :=
  { invoiceNoRaw := none
    invoiceDate := some 864000
    customerID := some 12583
    quantity := some 4
    unitPrice := some 2
    country := some "France" }

/-- A second valid row of the same customer, also with a missing invoice
id. -/
def missingInvoiceRow2 : CanonRow :=
  { invoiceNoRaw := none
    invoiceDate := some 950400
    customerID := some 12583
    quantity := some 2
    unitPrice := some 9
    country := some "France" }

/-! ### Generic helper lemmas -/

theorem foldr_max_le {l : List Nat} {m : Nat} (h : ∀ x ∈ l, x ≤ m) : l.foldr max 0 ≤ m := by
  induction l with
  | nil => exact Nat.zero_le m
  | cons x xs ih =>
    simp only [List.foldr_cons]
    exact max_le (h x (by simp)) (ih fun y hy => h y (by simp [hy]))

theorem le_foldr_max {l : List Nat} {x : Nat} (h : x ∈ l) : x ≤ l.foldr max 0 := by
  induction l with
  | nil => cases h
  | cons y ys ih =>
    simp only [List.foldr_cons]
    rcases List.mem_cons.mp h with rfl | hy
    · exact le_max_left _ _
    · exact le_trans (ih hy) (le_max_right _ _)

theorem foldr_max_mem {l : List Nat} (h : l ≠ []) : l.foldr max 0 ∈ l := by
  induction l with
  | nil => exact absurd rfl h
  | cons x xs ih =>
    simp only [List.foldr_cons]
    rcases eq_or_ne xs [] with rfl | hne
    · simp
    · rcases max_choice x (xs.foldr max 0) with hm | hm
      · simp [hm]
      · simp [hm, ih hne]

theorem insertBy_perm (lt : α → α → Bool) (v : α) (ys : List α) :
    List.Perm (insertBy lt v ys) (v :: ys) := by
  induction ys with
  | nil => simp [insertBy]
  | cons w ws ih =>
    simp only [insertBy]
    by_cases h : lt w v = true
    · simp only [h, if_true]
      exact (ih.cons w).trans (List.Perm.swap v w ws)
    · simp [h]

theorem sortByLt_perm (lt : α → α → Bool) (xs : List α) : List.Perm (sortByLt lt xs) xs := by
  induction xs with
  | nil => simp [sortByLt]
  | cons x xs ih =>
    have hstep : sortByLt lt (x :: xs) = insertBy lt x (sortByLt lt xs) := rfl
    rw [hstep]
    exact (insertBy_perm lt x (sortByLt lt xs)).trans (ih.cons x)

theorem mem_sortByLt {lt : α → α → Bool} {xs : List α} {a : α} :
    a ∈ sortByLt lt xs ↔ a ∈ xs :=
  (sortByLt_perm lt xs).mem_iff

theorem nodup_all_eq {l : List α} {v : α} (hnd : l.Nodup) (hmem : v ∈ l)
    (hall : ∀ x ∈ l, x = v) : l = [v] := by
  cases l with
  | nil => cases hmem
  | cons x xs =>
    have hx : x = v := hall x (by simp)
    have hxs : xs = [] := by
      cases xs with
      | nil => rfl
      | cons y ys =>
        have hy : y = v := hall y (by simp)
        have hxin : x ∈ y :: ys := by
          rw [hx, ← hy]
          simp
        exact absurd hxin (List.nodup_cons.mp hnd).1
    rw [hxs, hx]

/-! ### C5: the cleaner is a conjunction of independent row predicates -/

/-- C5: a canonical row is retained by the cleaner iff the conjunction of
the four predicates holds (non-null critical fields, no cancellation
prefix, positive quantity, positive price); the three filters compose into
a single filter of the conjunction, the same set results when the
predicates are applied in the opposite order, and the cleaned set is a
sublist of the input (rows are kept whole or dropped whole). -/
theorem c5_cleaner_conjunction (rows : List CanonRow) :
    cleanRows rows = rows.filter cleanPred ∧
    (∀ r, r ∈ cleanRows rows ↔
      r ∈ rows ∧ validRow r = true ∧ isCancel r = false ∧ posQty r = true ∧ posPrice r = true) ∧
    cleanRows rows =
      ((rows.filter fun r => posQty r && posPrice r).filter fun r => !isCancel r).filter validRow ∧
    (cleanRows rows).Sublist rows := by
  have h1 : cleanRows rows = rows.filter cleanPred := by
    unfold cleanRows
    rw [List.filter_filter, List.filter_filter]
    exact List.filter_congr fun r _ => by
      unfold cleanPred
      cases validRow r <;> cases isCancel r <;> cases posQty r <;> cases posPrice r <;> rfl
  refine ⟨h1, fun r => ?_, ?_, ?_⟩
  · rw [h1, List.mem_filter]
    unfold cleanPred
    constructor
    · rintro ⟨hm, hp⟩
      refine ⟨hm, ?_, ?_, ?_, ?_⟩ <;>
        (revert hp; cases validRow r <;> cases isCancel r <;> cases posQty r <;>
          cases posPrice r <;> simp)
    · rintro ⟨hm, h2, h3, h4, h5⟩
      exact ⟨hm, by rw [h2, h3, h4, h5]; rfl⟩
  · rw [h1, List.filter_filter, List.filter_filter]
    exact List.filter_congr fun r _ => by
      unfold cleanPred
      cases validRow r <;> cases isCancel r <;> cases posQty r <;> cases posPrice r <;> rfl
  · rw [h1]; exact List.filter_sublist rows

/-- C5 witness: the characterization applied to a two-row input retains the
valid row and drops the cancellation row. -/
theorem c5_cleaner_conjunction_witness :
    OnlineRetail.ukRow ∈ cleanRows [OnlineRetail.ukRow, OnlineRetail.cancelOnlyRow] ∧
    OnlineRetail.cancelOnlyRow ∉ cleanRows [OnlineRetail.ukRow, OnlineRetail.cancelOnlyRow] := by
  have h := c5_cleaner_conjunction [OnlineRetail.ukRow, OnlineRetail.cancelOnlyRow]
  constructor
  · exact (h.2.1 OnlineRetail.ukRow).mpr ⟨by simp, rfl, rfl, by rfl, by rfl⟩
  · intro hmem
    have hc := ((h.2.1 OnlineRetail.cancelOnlyRow).mp hmem).2.2.1
    exact absurd hc (by decide)

/-! ### C6: snapshot date and recency -/

theorem mem_cleanRows_valid {rows : List CanonRow} {r : CanonRow}
    (h : r ∈ cleanRows rows) : validRow r = true :=
  ((c5_cleaner_conjunction rows).2.1 r).mp h |>.2.1

theorem maxDate?_eq_some {rows : List CanonRow}
    (h : rows.filterMap (·.invoiceDate) ≠ []) :
    maxDate? rows = some ((rows.filterMap (·.invoiceDate)).foldr max 0) := by
  unfold maxDate?
  cases hcase : rows.filterMap (·.invoiceDate) with
  | nil => exact absurd hcase h
  | cons a as => simp

theorem buildRfm_of_max {rows : List CanonRow} {m : Nat}
    (h : maxDate? (cleanRows rows) = some m) :
    buildRfm rows =
      { cleanTable := (cleanRows rows).map fun r => (r, lineTotal r)
        rfmTable := (customerKeys (cleanRows rows)).map
          (mkRfmRecord (cleanRows rows) (m + secondsPerDay))
        snapshotDate := some (m + secondsPerDay) } := by
  simp only [buildRfm]
  rw [h]

theorem buildRfm_of_none {rows : List CanonRow}
    (h : maxDate? (cleanRows rows) = none) :
    buildRfm rows =
      { cleanTable := (cleanRows rows).map fun r => (r, lineTotal r)
        rfmTable := []
        snapshotDate := none } := by
  simp only [buildRfm]
  rw [h]

/-- C6: on a non-empty cleaned set, the snapshot date is the global maximum
invoice date plus one day; it is strictly greater than every invoice date
in the cleaned set, and every aggregated customer's recency is at least
one day. -/
theorem c6_snapshot_recency (rows : List CanonRow) (h : cleanRows rows ≠ []) :
    ∃ M, maxDate? (cleanRows rows) = some M ∧
      (∃ r ∈ cleanRows rows, r.invoiceDate = some M) ∧
      (buildRfm rows).snapshotDate = some (M + secondsPerDay) ∧
      (∀ r ∈ cleanRows rows, ∀ d, r.invoiceDate = some d → d < M + secondsPerDay) ∧
      (∀ q ∈ (buildRfm rows).rfmTable, 1 ≤ q.recencyDays) := by
  have hdsne : (cleanRows rows).filterMap (·.invoiceDate) ≠ [] := by
    obtain ⟨r, hr⟩ := List.exists_mem_of_ne_nil _ h
    have hv : validRow r = true := mem_cleanRows_valid hr
    simp only [validRow, Bool.and_eq_true] at hv
    obtain ⟨d, hd⟩ := Option.isSome_iff_exists.mp hv.1.1.1
    intro hnil
    have hmem : d ∈ (cleanRows rows).filterMap (·.invoiceDate) :=
      List.mem_filterMap.mpr ⟨r, hr, hd⟩
    rw [hnil] at hmem
    cases hmem
  have hmax := maxDate?_eq_some hdsne
  have hred := buildRfm_of_max hmax
  refine ⟨((cleanRows rows).filterMap (·.invoiceDate)).foldr max 0, hmax, ?_, ?_, ?_, ?_⟩
  · obtain ⟨r, hr, hrd⟩ := List.mem_filterMap.mp (foldr_max_mem hdsne)
    exact ⟨r, hr, hrd⟩
  · rw [hred]
  · intro r hr d hd
    have hmem : d ∈ (cleanRows rows).filterMap (·.invoiceDate) :=
      List.mem_filterMap.mpr ⟨r, hr, hd⟩
    have hle := le_foldr_max hmem
    have hsp : 0 < secondsPerDay := by decide
    omega
  · intro q hq
    rw [hred] at hq
    obtain ⟨c, _, rfl⟩ := List.mem_map.mp hq
    show 1 ≤ recencyOf _ (custRows (cleanRows rows) c)
    unfold recencyOf
    have hsub : ∀ d ∈ (custRows (cleanRows rows) c).filterMap (·.invoiceDate),
        d ≤ ((cleanRows rows).filterMap (·.invoiceDate)).foldr max 0 := by
      intro d hd
      obtain ⟨r, hr, hrd⟩ := List.mem_filterMap.mp hd
      have hrcl : r ∈ cleanRows rows := (List.mem_filter.mp hr).1
      exact le_foldr_max (List.mem_filterMap.mpr ⟨r, hrcl, hrd⟩)
    have hcm : custMaxDate (custRows (cleanRows rows) c) ≤
        ((cleanRows rows).filterMap (·.invoiceDate)).foldr max 0 := foldr_max_le hsub
    have hpos : 0 < secondsPerDay := by decide
    exact (Nat.le_div_iff_mul_le hpos).mpr (by omega)

/-- C6 witness: the single-row dataset retains its row, and the theorem
applies. -/
theorem c6_snapshot_recency_witness :
    ∃ M, maxDate? (cleanRows [OnlineRetail.ukRow]) = some M ∧
      (∃ r ∈ cleanRows [OnlineRetail.ukRow], r.invoiceDate = some M) ∧
      (buildRfm [OnlineRetail.ukRow]).snapshotDate = some (M + secondsPerDay) ∧
      (∀ r ∈ cleanRows [OnlineRetail.ukRow], ∀ d, r.invoiceDate = some d → d < M + secondsPerDay) ∧
      (∀ q ∈ (buildRfm [OnlineRetail.ukRow]).rfmTable, 1 ≤ q.recencyDays) :=
  c6_snapshot_recency [OnlineRetail.ukRow] (by decide)

/-! ### C10: rows with a missing invoice id -/

/-- C10: a row whose invoice id is missing but whose critical fields are
valid is retained by the cleaner (the stringified missing id `"nan"` does
not carry the `"C"` prefix), and a customer all of whose cleaned rows have
a missing invoice id has frequency exactly 1; moreover the stringified
invoice ids of the missing-id rows are all the single value `"nan"`. -/
theorem c10_missing_invoice_rows (rows : List CanonRow) :
    (∀ r ∈ rows, r.invoiceNoRaw = none → r.invoiceDate.isSome = true →
      r.customerID.isSome = true → posQty r = true → posPrice r = true →
      r ∈ cleanRows rows) ∧
    (∀ q ∈ (buildRfm rows).rfmTable,
      (∀ r ∈ custRows (cleanRows rows) q.customerID, r.invoiceNoRaw = none) →
      q.frequencyInvoices = 1) ∧
    ((rows.filter fun r => r.invoiceNoRaw.isNone).map fun r => invoiceStr r.invoiceNoRaw) =
      List.replicate (rows.filter fun r => r.invoiceNoRaw.isNone).length "nan" := by
  refine ⟨?_, ?_, ?_⟩
  · intro r hr hnone hdate hcust hq hp
    refine ((c5_cleaner_conjunction rows).2.1 r).mpr ⟨hr, ?_, ?_, hq, hp⟩
    · unfold validRow posQty posPrice at *
      rcases hq' : r.quantity with _ | q
      · rw [hq'] at hq; cases hq
      · rcases hp' : r.unitPrice with _ | p
        · rw [hp'] at hp; cases hp
        · simp [hdate, hcust, hq', hp']
    · unfold isCancel
      rw [hnone]
      decide
  · intro q hq hall
    have hbuild := hq
    rcases hcase : maxDate? (cleanRows rows) with _ | m
    · rw [buildRfm_of_none hcase] at hbuild
      simp at hbuild
    · rw [buildRfm_of_max hcase] at hbuild
      simp only [List.mem_map] at hbuild
      obtain ⟨c, hc, rfl⟩ := hbuild
      show frequencyOf (custRows (cleanRows rows) c) = 1
      set rs := custRows (cleanRows rows) c with hrs
      have hcmem : c ∈ (cleanRows rows).filterMap (·.customerID) := by
        have := mem_sortByLt.mp hc
        exact List.mem_dedup.mp this
      obtain ⟨r, hrcl, hrc⟩ := List.mem_filterMap.mp hcmem
      have hrrs : r ∈ rs := List.mem_filter.mpr ⟨hrcl, by simp [hrc]⟩
      have hall' : ∀ x ∈ rs.map fun r => invoiceStr r.invoiceNoRaw, x = "nan" := by
        intro x hx
        obtain ⟨r', hr', rfl⟩ := List.mem_map.mp hx
        rw [hall r' hr']
        rfl
      unfold frequencyOf
      have hmem : "nan" ∈ (rs.map fun r => invoiceStr r.invoiceNoRaw).dedup := by
        rw [List.mem_dedup]
        refine List.mem_map.mpr ⟨r, hrrs, ?_⟩
        rw [hall r hrrs]
        rfl
      rw [nodup_all_eq (List.nodup_dedup _) hmem
        (fun x hx => hall' x (List.mem_dedup.mp hx))]
      rfl
  · have hmemrep : ∀ b ∈ (rows.filter fun r => r.invoiceNoRaw.isNone).map
        fun r => invoiceStr r.invoiceNoRaw, b = "nan" := by
      intro b hb
      obtain ⟨r, hr, rfl⟩ := List.mem_map.mp hb
      have hnone : r.invoiceNoRaw = none := by
        have hfil := (List.mem_filter.mp hr).2
        rcases h' : r.invoiceNoRaw with _ | s
        · rfl
        · rw [h'] at hfil
          cases hfil
      rw [hnone]
      rfl
    have hrep := List.eq_replicate_of_mem hmemrep
    rw [hrep, List.length_map]

/-- C10 witness: two valid rows of one customer, both with missing invoice
ids, are retained and aggregate to frequency 1. -/
theorem c10_missing_invoice_rows_witness :
    OnlineRetail.missingInvoiceRow ∈ cleanRows [OnlineRetail.missingInvoiceRow, OnlineRetail.missingInvoiceRow2] ∧
    (∀ q ∈ (buildRfm [OnlineRetail.missingInvoiceRow, OnlineRetail.missingInvoiceRow2]).rfmTable,
      q.frequencyInvoices = 1) := by
  have h := c10_missing_invoice_rows [OnlineRetail.missingInvoiceRow, OnlineRetail.missingInvoiceRow2]
  refine ⟨h.1 OnlineRetail.missingInvoiceRow (by simp) rfl (by rfl) (by rfl) (by rfl) (by rfl), ?_⟩
  intro q hq
  refine h.2.1 q hq ?_
  intro r hr
  have hr1 : r ∈ cleanRows [OnlineRetail.missingInvoiceRow, OnlineRetail.missingInvoiceRow2] :=
    (List.mem_filter.mp hr).1
  have hr2 : r ∈ [OnlineRetail.missingInvoiceRow, OnlineRetail.missingInvoiceRow2] :=
    (((c5_cleaner_conjunction _).2.1 r).mp hr1).1
  simp only [List.mem_cons, List.not_mem_nil, or_false] at hr2
  rcases hr2 with rfl | rfl <;> rfl

/-! ### C1: empty cleaned set does not fail -/

/-- C1 counterexample: a dataset consisting of a single cancellation
invoice cleans to the empty set, yet the pipeline completes successfully,
persisting empty cleaned-transactions and RFM tables with a null snapshot
date — no empty-dataset error exists on this path. -/
theorem c1_counterexample :
    cleanRows [OnlineRetail.cancelOnlyRow] = [] ∧
    buildRfmPipeline OnlineRetail.canonicalCols [OnlineRetail.cancelOnlyRow] =
      .ok { cleanTable := [], rfmTable := [], snapshotDate := none } :=
  ⟨rfl, rfl⟩

/-- C1 amended: whenever the schema resolves and cleaning removes every
row, the pipeline completes successfully with empty persisted tables and a
null snapshot date; it raises no error of any kind. -/
theorem c1_amended_empty_success (rawCols : List String) (rows : List CanonRow)
    (hok : ∃ m, resolveSchema rawCols = .ok m) (hempty : cleanRows rows = []) :
    buildRfmPipeline rawCols rows =
      .ok { cleanTable := [], rfmTable := [], snapshotDate := none } := by
  obtain ⟨m, hm⟩ := hok
  unfold buildRfmPipeline
  rw [hm]
  unfold buildRfm
  rw [hempty]
  rfl

/-- C1 amended witness. -/
theorem c1_amended_empty_success_witness :
    buildRfmPipeline OnlineRetail.canonicalCols [OnlineRetail.cancelOnlyRow] =
      .ok { cleanTable := [], rfmTable := [], snapshotDate := none } :=
  c1_amended_empty_success OnlineRetail.canonicalCols [OnlineRetail.cancelOnlyRow] ⟨_, rfl⟩ rfl

/-! ### C7: schema resolution -/

theorem lookupGet_eq_none_iff {cols : List String} {k : String} :
    lookupGet cols k = none ↔ ∀ c ∈ cols, ¬colKey c = k := by
  unfold lookupGet
  rw [List.getLast?_eq_none_iff, List.filter_eq_nil_iff]
  simp

theorem lookupGet_some {cols : List String} {k c : String}
    (h : lookupGet cols k = some c) : c ∈ cols ∧ colKey c = k := by
  unfold lookupGet at h
  have hmem := List.mem_filter.mp (List.mem_of_getLast?_eq_some h)
  refine ⟨hmem.1, ?_⟩
  simpa using hmem.2

theorem candMatches_false_iff {cols : List String} {cand : String} :
    candMatches cols cand = false ↔ lookupGet cols (candKey cand) = none := by
  rw [lookupGet_eq_none_iff]
  unfold candMatches
  rw [List.any_eq_false]
  simp

theorem pick_eq_none_iff {cols : List String} {cands : List String} :
    pick cols cands = none ↔ ∀ cand ∈ cands, candMatches cols cand = false := by
  induction cands with
  | nil => simp [pick]
  | cons cand rest ih =>
    unfold pick
    cases h : lookupGet cols (candKey cand) with
    | some c =>
      constructor
      · intro hc
        cases hc
      · intro hall
        have hnone := candMatches_false_iff.mp (hall cand (by simp))
        rw [hnone] at h
        cases h
    | none =>
      rw [ih]
      constructor
      · intro hall c hc
        rcases List.mem_cons.mp hc with rfl | hc'
        · exact candMatches_false_iff.mpr h
        · exact hall c hc'
      · intro hall c hc
        exact hall c (List.mem_cons_of_mem _ hc)

theorem pick_first_match {cols : List String} {cands : List String} {col : String}
    (h : pick cols cands = some col) :
    ∃ pre cand post, cands = pre ++ cand :: post ∧
      (∀ p ∈ pre, candMatches cols p = false) ∧
      col ∈ cols ∧ colKey col = candKey cand := by
  induction cands with
  | nil => cases h
  | cons cand rest ih =>
    unfold pick at h
    split at h
    · rename_i c heq
      obtain rfl : c = col := Option.some.inj h
      obtain ⟨hmem, hkey⟩ := lookupGet_some heq
      exact ⟨[], cand, rest, rfl, by simp, hmem, hkey⟩
    · rename_i heq
      obtain ⟨pre, cand', post, rfl, hpre, hmem, hkey⟩ := ih h
      refine ⟨cand :: pre, cand', post, rfl, ?_, hmem, hkey⟩
      intro p hp
      rcases List.mem_cons.mp hp with rfl | hp'
      · exact candMatches_false_iff.mpr heq
      · exact hpre p hp'

theorem pick_isNone_eq_all {cols : List String} (cands : List String) :
    (pick cols cands).isNone = cands.all fun cand => !candMatches cols cand := by
  cases hp : pick cols cands with
  | none =>
    have hall := pick_eq_none_iff.mp hp
    simp only [Option.isNone_none]
    symm
    rw [List.all_eq_true]
    intro x hx
    simp [hall x hx]
  | some c =>
    simp only [Option.isNone_some]
    symm
    rw [Bool.eq_false_iff]
    intro hall
    rw [List.all_eq_true] at hall
    have hnone : pick cols cands = none := pick_eq_none_iff.mpr fun cand hc => by
      have := hall cand hc
      revert this
      cases candMatches cols cand <;> simp
    rw [hnone] at hp
    cases hp

theorem resolveSchema_missing_eq (cols : List String) :
    ((fieldCandidates.map fun fc => (fc.1, pick cols fc.2)).filter fun p => p.2.isNone).map Prod.fst
      = unmatchedFields cols := by
  unfold unmatchedFields
  have hfun : (Prod.fst ∘ fun fc : String × List String => (fc.1, pick cols fc.2)) = Prod.fst := by
    funext fc
    rfl
  rw [List.filter_map, List.map_map, hfun]
  congr 1
  apply List.filter_congr
  intro fc _
  simp only [Function.comp]
  exact pick_isNone_eq_all fc.2

theorem resolveSchema_ok_of_matched {rawCols : List String}
    (h : unmatchedFields (rawCols.map strip) = []) :
    resolveSchema rawCols =
      .ok (fieldCandidates.map fun fc => (fc.1, pick (rawCols.map strip) fc.2)) := by
  simp only [resolveSchema]
  rw [resolveSchema_missing_eq, h]
  rfl

theorem resolveSchema_error_of_unmatched {rawCols : List String}
    (h : unmatchedFields (rawCols.map strip) ≠ []) :
    resolveSchema rawCols =
      .error { missing := unmatchedFields (rawCols.map strip), found := rawCols.map strip } := by
  simp only [resolveSchema]
  rw [resolveSchema_missing_eq]
  rw [if_neg]
  simp [List.isEmpty_iff, h]

/-- C7: the schema resolver matches fields by exact comparison of
normalized names (lowercase, stripped, internal spaces and underscores
removed): a successful `pick` returns a raw column whose normalized key
equals the normalized key of the first matching candidate (all earlier
candidates matching nothing), `pick` fails exactly when no candidate
matches any column, the resolver errors if and only if at least one
required field is unmatched, every error carries exactly the missing field
names and the full column list, and a resolution error aborts the pipeline
for every row set, before any row-level processing. -/
theorem c7_schema_resolver (rawCols : List String) :
    (resolveSchema rawCols =
        .error { missing := unmatchedFields (rawCols.map strip), found := rawCols.map strip }
      ↔ unmatchedFields (rawCols.map strip) ≠ []) ∧
    (∀ e, resolveSchema rawCols = .error e →
      e.missing = unmatchedFields (rawCols.map strip) ∧ e.found = rawCols.map strip) ∧
    (unmatchedFields (rawCols.map strip) = [] →
      resolveSchema rawCols =
        .ok (fieldCandidates.map fun fc => (fc.1, pick (rawCols.map strip) fc.2))) ∧
    (∀ cands col, pick (rawCols.map strip) cands = some col →
      ∃ pre cand post, cands = pre ++ cand :: post ∧
        (∀ p ∈ pre, candMatches (rawCols.map strip) p = false) ∧
        col ∈ rawCols.map strip ∧ colKey col = candKey cand) ∧
    (∀ cands, pick (rawCols.map strip) cands = none ↔
      ∀ cand ∈ cands, candMatches (rawCols.map strip) cand = false) ∧
    (∀ rows, unmatchedFields (rawCols.map strip) ≠ [] →
      buildRfmPipeline rawCols rows =
        .error (.schema { missing := unmatchedFields (rawCols.map strip),
                          found := rawCols.map strip })) := by
  refine ⟨⟨fun herr => ?_, resolveSchema_error_of_unmatched⟩, fun e herr => ?_,
    resolveSchema_ok_of_matched, fun cands col h => pick_first_match h,
    fun cands => pick_eq_none_iff, fun rows hne => ?_⟩
  · intro heq
    rw [resolveSchema_ok_of_matched heq] at herr
    cases herr
  · rcases eq_or_ne (unmatchedFields (rawCols.map strip)) [] with heq | hne
    · rw [resolveSchema_ok_of_matched heq] at herr
      cases herr
    · rw [resolveSchema_error_of_unmatched hne] at herr
      obtain rfl := (Except.error.inj herr).symm
      exact ⟨rfl, rfl⟩
  · unfold buildRfmPipeline
    rw [resolveSchema_error_of_unmatched hne]

/-- C7 witness: a header with only two resolvable columns fails with the
six missing fields and the found columns. -/
theorem c7_schema_resolver_witness :
    resolveSchema ["Invoice", "StockCode"] =
      .error { missing := unmatchedFields (["Invoice", "StockCode"].map strip),
               found := ["Invoice", "StockCode"].map strip } :=
  (c7_schema_resolver ["Invoice", "StockCode"]).1.mpr (by decide)

/-! ### C2: degenerate clustering inputs -/

/-- C2 counterexample: three customers (so the requested k = 3 equals the
number of distinct customers), two of them with identical RFM records.
`KMeans` passes its sample-count validation, the duplicate collapses one
cluster so the fit returns only 2 distinct labels (a ConvergenceWarning,
not an error), `silhouette_score` accepts 2 ≤ 2 ≤ n - 1 = 2, and the run
completes successfully — no error of any kind is raised. -/
theorem c2_counterexample :
    OnlineRetail.dupPoints.length = 3 ∧ nDistinct OnlineRetail.dupPoints = 2 ∧
    trainSelectX OnlineRetail.dupPoints (fun _ => 0) 3 false = .ok (3, 0) :=
  ⟨rfl, rfl, rfl⟩

/-- C2 amended: with fewer than 2 customers (either mode) the operation
fails; with a fixed requested k strictly greater than the customer count
it fails; and with a fixed k equal to the customer count it fails whenever
the customers' encoded feature records are pairwise distinct (the fit then
returns k labels and `silhouette_score` rejects k > n - 1).  When
duplicate records bring the fitted label count into [2, n - 1], however,
the run completes successfully — k-means only warns about the collapsed
clusters. -/
theorem c2_amended_degenerate_fails (X : List (Rat × Rat × Rat)) (argK : Nat)
    (sil : Nat → Rat) (autoK : Bool)
    (h : (autoK = false ∧ (X.length < argK ∨ (argK = X.length ∧ X.Nodup))) ∨ X.length < 2) :
    ∃ e, trainSelectX X sil argK autoK = .error e := by
  rcases Nat.lt_or_ge X.length 2 with hn2 | hge2
  · rcases Nat.eq_zero_or_pos X.length with h0 | hpos
    · exact ⟨.emptyData, by simp [trainSelectX, scalerCheck, h0]⟩
    · have h0' : ¬X.length = 0 := by omega
      cases autoK
      · rcases Nat.eq_zero_or_pos argK with rfl | hk1
        · exact ⟨.badClusterCount 0,
            by simp [trainSelectX, scalerCheck, kmeansCheck, h0']⟩
        · rcases Nat.lt_or_ge X.length argK with hlt | hge
          · have hk1' : ¬argK < 1 := by omega
            exact ⟨.tooFewSamples X.length argK,
              by simp [trainSelectX, scalerCheck, kmeansCheck, h0', hk1', hlt]⟩
          · have heq : argK = 1 := by omega
            subst heq
            have hnlt : ¬X.length < 1 := by omega
            have hmin : ¬(2 ≤ kmeansLabels X 1 ∧ kmeansLabels X 1 + 1 ≤ X.length) := by
              unfold kmeansLabels
              have hle := Nat.min_le_left 1 (nDistinct X)
              omega
            exact ⟨.badLabelCount X.length (kmeansLabels X 1),
              by simp [trainSelectX, scalerCheck, kmeansCheck, silLabelCheck, h0', hnlt, hmin]⟩
      · have hg : kGrid = 2 :: List.range' 3 8 := rfl
        refine ⟨.tooFewSamples X.length 2, ?_⟩
        have hauto : autoScanX X sil kGrid (argK, -1) = .error (.tooFewSamples X.length 2) := by
          rw [hg]
          simp [autoScanX, kmeansCheck, hn2]
        simp [trainSelectX, scalerCheck, h0', hauto]
  · rcases h with ⟨rfl, hk⟩ | hcon
    · have h0' : ¬X.length = 0 := by omega
      rcases hk with hlt | ⟨heq, hnd⟩
      · have hk1 : ¬argK < 1 := by omega
        exact ⟨.tooFewSamples X.length argK,
          by simp [trainSelectX, scalerCheck, kmeansCheck, h0', hk1, hlt]⟩
      · have hD : nDistinct X = X.length := by
          unfold nDistinct
          rw [List.dedup_eq_self.mpr hnd]
        have hk1 : ¬argK < 1 := by omega
        have hnn : ¬X.length < argK := by omega
        have hlab : kmeansLabels X argK = argK := by
          unfold kmeansLabels
          rw [hD, heq]
          exact Nat.min_self _
        have hsil : ¬(2 ≤ argK ∧ argK + 1 ≤ X.length) := by omega
        exact ⟨.badLabelCount X.length argK,
          by simp [trainSelectX, scalerCheck, kmeansCheck, silLabelCheck, h0', hk1, hnn, hlab, hsil]⟩
    · omega

/-- C2 amended witness: three pairwise-distinct records and requested
k = 3 fail. -/
theorem c2_amended_degenerate_fails_witness :
    ∃ e, trainSelectX [((1 : Rat), (1 : Rat), (10 : Rat)), (5, 2, 30), (7, 3, 40)]
      (fun _ => 0) 3 false = .error e :=
  c2_amended_degenerate_fails [((1 : Rat), (1 : Rat), (10 : Rat)), (5, 2, 30), (7, 3, 40)]
    3 (fun _ => 0) false (Or.inl ⟨rfl, Or.inr ⟨rfl, by decide⟩⟩)

/-! ### C4: the auto-k scan selects the first maximum -/

theorem scanBest_all_le (sil : Nat → Rat) : ∀ (l : List Nat) (acc : Nat × Rat),
    (∀ k ∈ l, sil k ≤ acc.2) → scanBest sil l acc = acc := by
  intro l
  induction l with
  | nil =>
    intro acc _
    rfl
  | cons k ks ih =>
    intro acc hall
    have hk : sil k ≤ acc.2 := hall k (by simp)
    have hstep : scanStep sil acc k = acc := by
      unfold scanStep
      rw [if_neg (not_lt.mpr hk)]
    show scanBest sil ks (scanStep sil acc k) = acc
    rw [hstep]
    exact ih acc fun m hm => hall m (by simp [hm])

theorem scanBest_first_max (sil : Nat → Rat) : ∀ (l : List Nat), l.Pairwise (· < ·) →
    ∀ acc : Nat × Rat, (∃ k ∈ l, acc.2 < sil k) →
    ∃ j ∈ l, scanBest sil l acc = (j, sil j) ∧ acc.2 < sil j ∧
      (∀ k ∈ l, sil k ≤ sil j) ∧ (∀ k ∈ l, sil k = sil j → j ≤ k) := by
  intro l
  induction l with
  | nil =>
    rintro _ acc ⟨k, hk, _⟩
    cases hk
  | cons k ks ih =>
    intro hpw acc hex
    have hpw' := List.pairwise_cons.mp hpw
    by_cases hk : acc.2 < sil k
    · have hstep : scanStep sil acc k = (k, sil k) := by
        unfold scanStep
        rw [if_pos hk]
      by_cases hall : ∀ m ∈ ks, sil m ≤ sil k
      · refine ⟨k, by simp, ?_, hk, ?_, ?_⟩
        · show scanBest sil ks (scanStep sil acc k) = (k, sil k)
          rw [hstep]
          exact scanBest_all_le sil ks (k, sil k) hall
        · intro m hm
          rcases List.mem_cons.mp hm with rfl | hm'
          · exact le_refl _
          · exact hall m hm'
        · intro m hm _
          rcases List.mem_cons.mp hm with rfl | hm'
          · exact le_refl _
          · exact le_of_lt (hpw'.1 m hm')
      · push_neg at hall
        obtain ⟨m, hm, hmk⟩ := hall
        obtain ⟨j, hj, hres, hjgt, hle, hfirst⟩ := ih hpw'.2 (k, sil k) ⟨m, hm, hmk⟩
        refine ⟨j, by simp [hj], ?_, lt_trans hk hjgt, ?_, ?_⟩
        · show scanBest sil ks (scanStep sil acc k) = (j, sil j)
          rw [hstep]
          exact hres
        · intro x hx
          rcases List.mem_cons.mp hx with rfl | hx'
          · exact le_of_lt hjgt
          · exact hle x hx'
        · intro x hx hxeq
          rcases List.mem_cons.mp hx with rfl | hx'
          · exact absurd hxeq (ne_of_lt hjgt)
          · exact hfirst x hx' hxeq
    · have hstep : scanStep sil acc k = acc := by
        unfold scanStep
        rw [if_neg hk]
      have hex' : ∃ m ∈ ks, acc.2 < sil m := by
        obtain ⟨m, hm, hma⟩ := hex
        rcases List.mem_cons.mp hm with rfl | hm'
        · exact absurd hma hk
        · exact ⟨m, hm', hma⟩
      obtain ⟨j, hj, hres, hjgt, hle, hfirst⟩ := ih hpw'.2 acc hex'
      have hkj : sil k < sil j := lt_of_le_of_lt (not_lt.mp hk) hjgt
      refine ⟨j, by simp [hj], ?_, hjgt, ?_, ?_⟩
      · show scanBest sil ks (scanStep sil acc k) = (j, sil j)
        rw [hstep]
        exact hres
      · intro x hx
        rcases List.mem_cons.mp hx with rfl | hx'
        · exact le_of_lt hkj
        · exact hle x hx'
      · intro x hx hxeq
        rcases List.mem_cons.mp hx with rfl | hx'
        · exact absurd hxeq (ne_of_lt hkj)
        · exact hfirst x hx' hxeq

theorem autoScan_ok (n : Nat) (sil : Nat → Rat) : ∀ (l : List Nat) (acc : Nat × Rat),
    (∀ k ∈ l, kmeansCheck n k = .ok () ∧ silCheck n k = .ok ()) →
    autoScan n sil l acc = .ok (scanBest sil l acc) := by
  intro l
  induction l with
  | nil =>
    intro acc _
    rfl
  | cons k ks ih =>
    intro acc h
    have hk := h k (by simp)
    unfold autoScan
    simp only [hk.1, hk.2]
    exact ih (scanStep sil acc k) fun m hm => h m (by simp [hm])

/-- C4: in auto-k mode with at least 11 customers, the scan over k = 2..10
returns the k with the strictly highest silhouette score; when several k
tie at the maximum, the smallest (first in the ascending scan) is
selected. -/
theorem c4_auto_k_first_max (n argK : Nat) (sil : Nat → Rat)
    (hn : 11 ≤ n) (hs : ∀ k ∈ kGrid, -1 < sil k) :
    ∃ kstar, trainSelect n sil argK true = .ok (kstar, sil kstar) ∧
      kstar ∈ kGrid ∧ (∀ k ∈ kGrid, sil k ≤ sil kstar) ∧
      (∀ k ∈ kGrid, sil k = sil kstar → kstar ≤ k) := by
  have hgrid : ∀ k ∈ kGrid, 2 ≤ k ∧ k ≤ 10 := by decide
  have hchecks : ∀ k ∈ kGrid, kmeansCheck n k = .ok () ∧ silCheck n k = .ok () := by
    intro k hk
    obtain ⟨h2, h10⟩ := hgrid k hk
    constructor
    · unfold kmeansCheck
      rw [if_neg (by omega), if_neg (by omega)]
    · unfold silCheck
      rw [if_pos (by omega)]
  have hpw : kGrid.Pairwise (· < ·) := by decide
  have hex : ∃ k ∈ kGrid, ((argK, (-1 : Rat)) : Nat × Rat).2 < sil k :=
    ⟨2, by decide, hs 2 (by decide)⟩
  obtain ⟨j, hj, hres, hjgt, hle, hfirst⟩ := scanBest_first_max sil kGrid hpw (argK, -1) hex
  refine ⟨j, ?_, hj, hle, hfirst⟩
  have hscaler : scalerCheck n = .ok () := by
    unfold scalerCheck
    rw [if_neg (by omega)]
  have hauto := autoScan_ok n sil kGrid (argK, -1) hchecks
  have hfinal : kmeansCheck n j = .ok () := (hchecks j hj).1
  unfold trainSelect
  simp only [hscaler, if_true, hauto, hres, hfinal]

/-- C4 witness: the spec's scenario (scores 0.41, 0.55, 0.55, 0.55 at
k = 2..5) selects k = 3, the first k achieving the maximum. -/
theorem c4_auto_k_first_max_witness :
    trainSelect 11 silExample 4 true = .ok (3, mkRat 55 100) ∧
    (∃ kstar, trainSelect 11 silExample 4 true = .ok (kstar, silExample kstar) ∧
      kstar ∈ kGrid ∧ (∀ k ∈ kGrid, silExample k ≤ silExample kstar) ∧
      (∀ k ∈ kGrid, silExample k = silExample kstar → kstar ≤ k)) :=
  ⟨by rfl, c4_auto_k_first_max 11 4 silExample (by norm_num)
    (by
      intro k hk
      unfold silExample
      split_ifs <;> norm_num [mkRat])⟩

/-! ### C3: the dominant-country tie break -/

theorem char_toNat_inj {a b : Char} (h : a.toNat = b.toNat) : a = b := by
  rw [← Char.ofNat_toNat a, ← Char.ofNat_toNat b, h]

theorem listLtB_irrefl : ∀ l : List Char, listLtB l l = false := by
  intro l
  induction l with
  | nil => rfl
  | cons a as ih =>
    unfold listLtB
    rw [if_neg (lt_irrefl _), if_neg (lt_irrefl _)]
    exact ih

theorem listLtB_asymm : ∀ l1 l2 : List Char, listLtB l1 l2 = true → listLtB l2 l1 = false := by
  intro l1
  induction l1 with
  | nil =>
    intro l2 h
    cases l2 with
    | nil => cases h
    | cons b bs => rfl
  | cons a as ih =>
    intro l2 h
    cases l2 with
    | nil => cases h
    | cons b bs =>
      unfold listLtB at h ⊢
      by_cases hab : a.toNat < b.toNat
      · rw [if_neg (by omega), if_pos hab]
      · by_cases hba : b.toNat < a.toNat
        · rw [if_neg hab, if_pos hba] at h
          cases h
        · rw [if_neg hab, if_neg hba] at h
          rw [if_neg hba, if_neg hab]
          exact ih bs h

theorem listLtB_trichotomy : ∀ l1 l2 : List Char,
    listLtB l1 l2 = true ∨ l1 = l2 ∨ listLtB l2 l1 = true := by
  intro l1
  induction l1 with
  | nil =>
    intro l2
    cases l2 with
    | nil => exact Or.inr (Or.inl rfl)
    | cons b bs => exact Or.inl rfl
  | cons a as ih =>
    intro l2
    cases l2 with
    | nil => exact Or.inr (Or.inr rfl)
    | cons b bs =>
      rcases Nat.lt_trichotomy a.toNat b.toNat with h | h | h
      · left
        unfold listLtB
        rw [if_pos h]
      · obtain rfl : a = b := char_toNat_inj h
        rcases ih bs with h' | h' | h'
        · left
          unfold listLtB
          rw [if_neg (lt_irrefl _), if_neg (lt_irrefl _)]
          exact h'
        · right
          left
          rw [h']
        · right
          right
          unfold listLtB
          rw [if_neg (lt_irrefl _), if_neg (lt_irrefl _)]
          exact h'
      · right
        right
        unfold listLtB
        rw [if_pos h]

theorem listLtB_trans : ∀ l1 l2 l3 : List Char,
    listLtB l1 l2 = true → listLtB l2 l3 = true → listLtB l1 l3 = true := by
  intro l1
  induction l1 with
  | nil =>
    intro l2 l3 h12 h23
    cases l3 with
    | nil =>
      cases l2 with
      | nil => cases h12
      | cons b bs => cases h23
    | cons c cs => rfl
  | cons a as ih =>
    intro l2 l3 h12 h23
    cases l2 with
    | nil => cases h12
    | cons b bs =>
      cases l3 with
      | nil => cases h23
      | cons c cs =>
        unfold listLtB at h12 h23 ⊢
        by_cases hab : a.toNat < b.toNat
        · by_cases hbc : b.toNat < c.toNat
          · rw [if_pos (by omega)]
          · by_cases hcb : c.toNat < b.toNat
            · rw [if_neg hbc, if_pos hcb] at h23
              cases h23
            · rw [if_pos (by omega)]
        · by_cases hba : b.toNat < a.toNat
          · rw [if_neg hab, if_pos hba] at h12
            cases h12
          · rw [if_neg hab, if_neg hba] at h12
            by_cases hbc : b.toNat < c.toNat
            · rw [if_pos (by omega)]
            · by_cases hcb : c.toNat < b.toNat
              · rw [if_neg hbc, if_pos hcb] at h23
                cases h23
              · rw [if_neg hbc, if_neg hcb] at h23
                rw [if_neg (by omega), if_neg (by omega)]
                exact ih bs cs h12 h23

theorem strLtB_irrefl : ∀ s : String, strLtB s s = false :=
  fun s => listLtB_irrefl s.data

theorem strLtB_asymm : ∀ s t : String, strLtB s t = true → strLtB t s = false :=
  fun _ _ h => listLtB_asymm _ _ h

theorem strLtB_trichotomy : ∀ s t : String, strLtB s t = true ∨ s = t ∨ strLtB t s = true := by
  intro s t
  rcases listLtB_trichotomy s.data t.data with h | h | h
  · exact Or.inl h
  · refine Or.inr (Or.inl ?_)
    cases s
    cases t
    exact congrArg String.mk h
  · exact Or.inr (Or.inr h)

theorem strLtB_negtrans : ∀ s t u : String,
    strLtB s u = true → strLtB s t = true ∨ strLtB t u = true := by
  intro s t u hsu
  rcases strLtB_trichotomy s t with h | h | h
  · exact Or.inl h
  · exact Or.inr (h ▸ hsu)
  · exact Or.inr (listLtB_trans t.data s.data u.data h hsu)

theorem sortByLt_head_min (lt : α → α → Bool)
    (hirr : ∀ a, lt a a = false)
    (hasym : ∀ a b, lt a b = true → lt b a = false)
    (hneg : ∀ a b c, lt a c = true → lt a b = true ∨ lt b c = true) :
    ∀ (xs : List α) (m : α) (rest : List α), sortByLt lt xs = m :: rest →
      ∀ w ∈ xs, lt w m = false := by
  intro xs
  induction xs with
  | nil =>
    intro m rest h
    cases h
  | cons x xs ih =>
    intro m rest h w hw
    have hs : sortByLt lt (x :: xs) = insertBy lt x (sortByLt lt xs) := rfl
    rw [hs] at h
    cases hsort : sortByLt lt xs with
    | nil =>
      rw [hsort] at h
      unfold insertBy at h
      injection h with h1 h2
      subst h1
      have hxs : xs = [] := by
        have hperm := sortByLt_perm lt xs
        rw [hsort] at hperm
        exact (hperm.symm).eq_nil
      subst hxs
      rcases List.mem_cons.mp hw with rfl | hw'
      · exact hirr w
      · cases hw'
    | cons m' rest' =>
      rw [hsort] at h
      have ihm := ih m' rest' hsort
      unfold insertBy at h
      by_cases hcmp : lt m' x = true
      · rw [if_pos hcmp] at h
        injection h with h1 h2
        subst h1
        rcases List.mem_cons.mp hw with rfl | hw'
        · exact hasym _ _ hcmp
        · exact ihm w hw'
      · rw [if_neg hcmp] at h
        injection h with h1 h2
        subst h1
        rcases List.mem_cons.mp hw with rfl | hw'
        · exact hirr w
        · cases hlt : lt w x with
          | false => rfl
          | true =>
            rcases hneg w m' x hlt with hcon | hcon
            · rw [ihm w hw'] at hcon
              cases hcon
            · exact absurd hcon hcmp

theorem modeValues_ne_nil {xs : List String} (h : xs ≠ []) : modeValues xs ≠ [] := by
  have hdne : xs.dedup ≠ [] := by
    obtain ⟨x, hx⟩ := List.exists_mem_of_ne_nil _ h
    intro hnil
    have hmem : x ∈ xs.dedup := List.mem_dedup.mpr hx
    rw [hnil] at hmem
    cases hmem
  have hcne : xs.dedup.map (countOf xs) ≠ [] := by
    intro hnil
    exact hdne (List.map_eq_nil_iff.mp hnil)
  obtain ⟨v, hv, hvc⟩ := List.mem_map.mp (foldr_max_mem hcne)
  intro hnil
  have hmem : v ∈ modeValues xs := by
    unfold modeValues
    rw [List.mem_filter]
    refine ⟨hv, ?_⟩
    unfold maxCount
    rw [hvc]
    exact beq_self_eq_true _
  rw [hnil] at hmem
  cases hmem

theorem mem_modeValues {xs : List String} {v : String} :
    v ∈ modeValues xs ↔ v ∈ xs.dedup ∧ countOf xs v = maxCount xs := by
  unfold modeValues
  rw [List.mem_filter]
  simp

/-- C3 counterexample: two cleaned rows of one customer, countries
"United Kingdom" then "France", tie at one occurrence each; the
first-encountered value is "United Kingdom", yet the aggregated dominant
country is "France" — the alphabetically smallest tied value, not the
first-encountered one. -/
theorem c3_counterexample :
    countOf ((cleanRows [OnlineRetail.ukRow, OnlineRetail.franceRow]).filterMap (·.country)) "United Kingdom" = 1 ∧
    countOf ((cleanRows [OnlineRetail.ukRow, OnlineRetail.franceRow]).filterMap (·.country)) "France" = 1 ∧
    ((cleanRows [OnlineRetail.ukRow, OnlineRetail.franceRow]).filterMap (·.country)).head? = some "United Kingdom" ∧
    (buildRfm [OnlineRetail.ukRow, OnlineRetail.franceRow]).rfmTable.map (fun q => q.country) = [some "France"] :=
  ⟨rfl, rfl, rfl, rfl⟩

/-- C3 amended: the dominant country is a value of maximal occurrence count
among the customer's non-null country cells, and when several values tie at
the maximal count, the lexicographically (alphabetically) smallest tied
value is chosen — pandas sorts the modes — not the first-encountered one. -/
theorem c3_amended_alphabetical_tie (rs : List CanonRow)
    (h : rs.filterMap (·.country) ≠ []) :
    ∃ m, dominantCountry rs = some m ∧
      m ∈ (rs.filterMap (·.country)).dedup ∧
      countOf (rs.filterMap (·.country)) m = maxCount (rs.filterMap (·.country)) ∧
      ∀ w ∈ (rs.filterMap (·.country)).dedup,
        countOf (rs.filterMap (·.country)) w = maxCount (rs.filterMap (·.country)) →
        w ≠ m → strLtB m w = true := by
  have hmv := modeValues_ne_nil h
  cases hsort : modeSorted (rs.filterMap (·.country)) with
  | nil =>
    exfalso
    have hperm := sortByLt_perm strLtB (modeValues (rs.filterMap (·.country)))
    rw [show sortByLt strLtB (modeValues (rs.filterMap (·.country)))
        = modeSorted (rs.filterMap (·.country)) from rfl, hsort] at hperm
    exact hmv (hperm.symm).eq_nil
  | cons m rest =>
    have hdom : dominantCountry rs = some m := by
      unfold dominantCountry
      rw [hsort]
    have hmem : m ∈ modeValues (rs.filterMap (·.country)) := by
      apply (@mem_sortByLt String strLtB (modeValues (rs.filterMap (·.country))) m).mp
      show m ∈ sortByLt strLtB (modeValues (rs.filterMap (·.country)))
      rw [show sortByLt strLtB (modeValues (rs.filterMap (·.country)))
          = modeSorted (rs.filterMap (·.country)) from rfl, hsort]
      simp
    obtain ⟨hmd, hmc⟩ := mem_modeValues.mp hmem
    refine ⟨m, hdom, hmd, hmc, ?_⟩
    intro w hw hwc hwm
    have hwmode : w ∈ modeValues (rs.filterMap (·.country)) := mem_modeValues.mpr ⟨hw, hwc⟩
    have hsort' : sortByLt strLtB (modeValues (rs.filterMap (·.country))) = m :: rest := hsort
    have hmin := sortByLt_head_min strLtB strLtB_irrefl strLtB_asymm strLtB_negtrans
      (modeValues (rs.filterMap (·.country))) m rest hsort' w hwmode
    rcases strLtB_trichotomy m w with hlt | heq | hgt
    · exact hlt
    · exact absurd heq.symm hwm
    · rw [hmin] at hgt
      cases hgt

/-- C3 amended witness. -/
theorem c3_amended_alphabetical_tie_witness :
    ∃ m, dominantCountry [OnlineRetail.ukRow, OnlineRetail.franceRow] = some m ∧
      m ∈ (([OnlineRetail.ukRow, OnlineRetail.franceRow] : List CanonRow).filterMap (·.country)).dedup ∧
      countOf (([OnlineRetail.ukRow, OnlineRetail.franceRow] : List CanonRow).filterMap (·.country)) m
        = maxCount (([OnlineRetail.ukRow, OnlineRetail.franceRow] : List CanonRow).filterMap (·.country)) ∧
      ∀ w ∈ (([OnlineRetail.ukRow, OnlineRetail.franceRow] : List CanonRow).filterMap (·.country)).dedup,
        countOf (([OnlineRetail.ukRow, OnlineRetail.franceRow] : List CanonRow).filterMap (·.country)) w
          = maxCount (([OnlineRetail.ukRow, OnlineRetail.franceRow] : List CanonRow).filterMap (·.country)) →
        w ≠ m → strLtB m w = true :=
  c3_amended_alphabetical_tie [OnlineRetail.ukRow, OnlineRetail.franceRow] (by decide)

/-! ### C9: the encoding round-trip -/

/-- C9: for any fitted per-dimension (mean, std) parameters and any RFM
record with non-negative components, decoding the encoded record with the
persisted parameters reproduces the original recency, frequency and
monetary values exactly (over the reals; the floating-point tolerance of
the claim is subsumed by exact equality). -/
theorem c9_encode_decode_roundtrip (p : EncParams) (t : RfmTriple)
    (hr : 0 ≤ t.recency) (hf : 0 ≤ t.frequency) (hm : 0 ≤ t.monetary) :
    decodeRfm p (encodeRfm p t) = t := by
  have key : ∀ (q : ScaleParams) (x : Real), 0 ≤ x → decodeDim q (encodeDim q x) = x := by
    intro q x hx
    unfold decodeDim encodeDim
    have hsz : handleZeros q.std ≠ 0 := by
      unfold handleZeros
      split_ifs with h0
      · exact one_ne_zero
      · exact h0
    have harg : (Real.log (1 + x) - q.mean) / handleZeros q.std * handleZeros q.std + q.mean
        = Real.log (1 + x) := by
      field_simp
    rw [harg, Real.exp_log (by linarith)]
    ring
  cases t with
  | mk r f m =>
    simp only [encodeRfm, decodeRfm] at *
    rw [key p.recP r hr, key p.freqP f hf, key p.monP m hm]

/-- C9 witness: the identity scaling parameters on the record (3, 5, 11). -/
theorem c9_encode_decode_roundtrip_witness :
    decodeRfm ⟨⟨0, 1⟩, ⟨0, 1⟩, ⟨0, 1⟩⟩ (encodeRfm ⟨⟨0, 1⟩, ⟨0, 1⟩, ⟨0, 1⟩⟩ ⟨3, 5, 11⟩) = ⟨3, 5, 11⟩ :=
  c9_encode_decode_roundtrip ⟨⟨0, 1⟩, ⟨0, 1⟩, ⟨0, 1⟩⟩ ⟨3, 5, 11⟩
    (by norm_num) (by norm_num) (by norm_num)

/-! ### C8: segment-name uniqueness -/

theorem string_data_inj {s t : String} (h : s.data = t.data) : s = t := by
  cases s
  cases t
  exact congrArg String.mk h

theorem toDigitsCore_succ (f n : Nat) (acc : List Char) :
    Nat.toDigitsCore 10 (f + 1) n acc =
      if n / 10 = 0 then Nat.digitChar (n % 10) :: acc
      else Nat.toDigitsCore 10 f (n / 10) (Nat.digitChar (n % 10) :: acc) := rfl

theorem toDigitsCore_shift : ∀ (n f : Nat), n < f → ∀ (acc : List Char),
    Nat.toDigitsCore 10 f n acc = Nat.toDigits 10 n ++ acc := by
  intro n
  induction n using Nat.strong_induction_on with
  | _ n ih =>
    intro f hf acc
    obtain ⟨f', rfl⟩ : ∃ f', f = f' + 1 := ⟨f - 1, by omega⟩
    rw [toDigitsCore_succ]
    unfold Nat.toDigits
    rw [toDigitsCore_succ]
    by_cases h : n / 10 = 0
    · rw [if_pos h, if_pos h]
      rfl
    · rw [if_neg h, if_neg h]
      have hne : n ≠ 0 := fun h0 => h (by rw [h0])
      have hlt : n / 10 < n := Nat.div_lt_self (by omega) (by omega)
      rw [ih (n / 10) hlt f' (by omega) _]
      rw [ih (n / 10) hlt n hlt _]
      rw [List.append_assoc]
      rfl

theorem digitsVal_append_singleton (l : List Char) (c : Char) :
    digitsVal (l ++ [c]) = 10 * digitsVal l + (c.toNat - 48) := by
  unfold digitsVal
  rw [List.foldl_append]
  rfl

theorem digitChar_val (m : Nat) (h : m < 10) : (Nat.digitChar m).toNat - 48 = m := by
  interval_cases m <;> rfl

theorem digitsVal_toDigits : ∀ n : Nat, digitsVal (Nat.toDigits 10 n) = n := by
  intro n
  induction n using Nat.strong_induction_on with
  | _ n ih =>
    unfold Nat.toDigits
    rw [toDigitsCore_succ]
    by_cases h : n / 10 = 0
    · rw [if_pos h]
      have hn : n < 10 := by
        by_contra hge
        push_neg at hge
        have h1 : 1 ≤ n / 10 := (Nat.one_le_div_iff (by omega)).mpr hge
        omega
      have hd := digitChar_val (n % 10) (Nat.mod_lt _ (by omega))
      have hsing : digitsVal [Nat.digitChar (n % 10)] = (Nat.digitChar (n % 10)).toNat - 48 := by
        unfold digitsVal
        simp [List.foldl]
      rw [hsing, hd]
      omega
    · rw [if_neg h]
      have hne : n ≠ 0 := fun h0 => h (by rw [h0])
      have hlt : n / 10 < n := Nat.div_lt_self (by omega) (by omega)
      rw [toDigitsCore_shift (n / 10) n hlt]
      rw [digitsVal_append_singleton]
      rw [ih (n / 10) hlt]
      have hd := digitChar_val (n % 10) (Nat.mod_lt _ (by omega))
      omega

theorem natRepr_injective {a b : Nat} (h : Nat.repr a = Nat.repr b) : a = b := by
  have ha := digitsVal_toDigits a
  have hb := digitsVal_toDigits b
  unfold Nat.repr at h
  rw [List.asString_inj] at h
  rw [← ha, ← hb, h]

theorem labelStrings_data_ne_nil : ∀ s ∈ labelStrings, s.data ≠ [] := by decide

theorem labelStrings_first_distinct :
    ∀ s ∈ labelStrings, ∀ t ∈ labelStrings, s ≠ t → ¬s.data.head? = t.data.head? := by decide

theorem appendId_data (nm : String) (cl : Nat) :
    (appendId nm cl).data = nm.data ++ (" (".data ++ ((Nat.repr cl).data ++ ")".data)) := by
  unfold appendId
  rw [String.data_append, String.data_append, String.data_append,
    List.append_assoc, List.append_assoc]

theorem appendId_head (nm : String) (cl : Nat) (h : nm.data ≠ []) :
    (appendId nm cl).data.head? = nm.data.head? := by
  rw [appendId_data]
  cases hd : nm.data with
  | nil => exact absurd hd h
  | cons c cs => simp

theorem appendId_ne (nm : String) (cl : Nat) : appendId nm cl ≠ nm := by
  intro h
  have hlen := congrArg String.length h
  unfold appendId at hlen
  rw [String.length_append, String.length_append, String.length_append] at hlen
  have h2 : (" (" : String).length = 2 := rfl
  have h3 : (")" : String).length = 1 := rfl
  omega

theorem appendId_ne_label {nm lab : String} (hnm : nm ∈ labelStrings)
    (hlab : lab ∈ labelStrings) (cl : Nat) : appendId nm cl ≠ lab := by
  by_cases h : nm = lab
  · subst h
    exact appendId_ne nm cl
  · intro heq
    have h1 : (appendId nm cl).data.head? = nm.data.head? :=
      appendId_head nm cl (labelStrings_data_ne_nil nm hnm)
    rw [heq] at h1
    exact labelStrings_first_distinct nm hnm lab hlab h h1.symm

theorem appendId_inj_id {nm : String} {a b : Nat} (h : appendId nm a = appendId nm b) : a = b := by
  have hd := congrArg String.data h
  rw [appendId_data, appendId_data] at hd
  have h1 := List.append_cancel_left hd
  have h2 := List.append_cancel_left h1
  have h3 := List.append_cancel_right h2
  exact natRepr_injective (string_data_inj h3)

theorem appendId_ne_of_label_ne {nm1 nm2 : String} (h1 : nm1 ∈ labelStrings)
    (h2 : nm2 ∈ labelStrings) (hne : nm1 ≠ nm2) (a b : Nat) :
    appendId nm1 a ≠ appendId nm2 b := by
  intro heq
  have e1 := appendId_head nm1 a (labelStrings_data_ne_nil nm1 h1)
  have e2 := appendId_head nm2 b (labelStrings_data_ne_nil nm2 h2)
  rw [heq] at e1
  exact labelStrings_first_distinct nm2 h2 nm1 h1 (Ne.symm hne) (e2.symm.trans e1)

theorem resolveNames_shape : ∀ (entries : List (Nat × String)) (seen : List String)
    (p : Nat × String), p ∈ resolveNames entries seen →
    ∃ q ∈ entries, p.1 = q.1 ∧
      ((p.2 = q.2 ∧ p.2 ∉ seen) ∨ p.2 = appendId q.2 q.1) := by
  intro entries
  induction entries with
  | nil =>
    intro seen p hp
    cases hp
  | cons e rest ih =>
    intro seen p hp
    obtain ⟨cl, nm⟩ := e
    unfold resolveNames at hp
    by_cases hs : nm ∈ seen
    · rw [if_pos hs] at hp
      rcases List.mem_cons.mp hp with rfl | hp'
      · exact ⟨(cl, nm), by simp, rfl, Or.inr rfl⟩
      · obtain ⟨q, hq, h1, h2⟩ := ih seen p hp'
        exact ⟨q, by simp [hq], h1, h2⟩
    · rw [if_neg hs] at hp
      rcases List.mem_cons.mp hp with rfl | hp'
      · exact ⟨(cl, nm), by simp, rfl, Or.inl ⟨rfl, hs⟩⟩
      · obtain ⟨q, hq, h1, h2⟩ := ih (nm :: seen) p hp'
        refine ⟨q, by simp [hq], h1, ?_⟩
        rcases h2 with ⟨he, hns⟩ | happ
        · exact Or.inl ⟨he, fun hmem => hns (List.mem_cons_of_mem _ hmem)⟩
        · exact Or.inr happ

theorem resolveNames_distinct : ∀ (entries : List (Nat × String)) (seen : List String),
    (∀ p ∈ entries, p.2 ∈ labelStrings) →
    (entries.map Prod.fst).Nodup →
    ((resolveNames entries seen).map Prod.snd).Pairwise (fun a b => a ≠ b) := by
  intro entries
  induction entries with
  | nil =>
    intro seen _ _
    simp [resolveNames]
  | cons e rest ih =>
    intro seen hlab hnd
    obtain ⟨cl, nm⟩ := e
    have hnm : nm ∈ labelStrings := hlab (cl, nm) (by simp)
    have hnd' : cl ∉ rest.map Prod.fst ∧ (rest.map Prod.fst).Nodup := by
      rw [List.map_cons] at hnd
      exact List.nodup_cons.mp hnd
    have hlab' : ∀ p ∈ rest, p.2 ∈ labelStrings := fun p hp => hlab p (by simp [hp])
    unfold resolveNames
    by_cases hs : nm ∈ seen
    · rw [if_pos hs, List.map_cons, List.pairwise_cons]
      refine ⟨?_, ih seen hlab' hnd'.2⟩
      intro x hx
      obtain ⟨p, hp, rfl⟩ := List.mem_map.mp hx
      obtain ⟨q, hq, _, hcase⟩ := resolveNames_shape rest seen p hp
      have hqlab : q.2 ∈ labelStrings := hlab' q hq
      rcases hcase with ⟨he, _⟩ | happ
      · rw [he]
        exact appendId_ne_label hnm hqlab cl
      · rw [happ]
        by_cases hl : nm = q.2
        · rw [← hl]
          intro heq
          have hid : cl = q.1 := appendId_inj_id heq
          apply hnd'.1
          rw [hid]
          exact List.mem_map.mpr ⟨q, hq, rfl⟩
        · exact appendId_ne_of_label_ne hnm hqlab hl cl q.1
    · rw [if_neg hs, List.map_cons, List.pairwise_cons]
      refine ⟨?_, ih (nm :: seen) hlab' hnd'.2⟩
      intro x hx
      obtain ⟨p, hp, rfl⟩ := List.mem_map.mp hx
      obtain ⟨q, hq, _, hcase⟩ := resolveNames_shape rest (nm :: seen) p hp
      have hqlab : q.2 ∈ labelStrings := hlab' q hq
      rcases hcase with ⟨he, hnin⟩ | happ
      · intro heq
        exact hnin (heq ▸ List.mem_cons_self nm seen)
      · rw [happ]
        exact (appendId_ne_label hqlab hnm q.1).symm

theorem clusterIds_nodup (rows : List ScoredRow) : (clusterIds rows).Nodup := by
  unfold clusterIds
  exact (sortByLt_perm natLtB ((rows.map (·.cluster)).dedup)).nodup_iff.mpr
    (List.nodup_dedup _)

theorem computedLabel_mem (rows : List ScoredRow) (cl : Nat) :
    computedLabel rows cl ∈ labelStrings := by
  simp only [computedLabel]
  split_ifs <;> simp [labelStrings]

/-- C8: for every scoring run, the final segment names of the clusters are
pairwise distinct, and every cluster's final name is either its computed
qualitative label, or — when an earlier cluster in the ascending scan
already claimed that label — the label with the cluster's own id appended
in parentheses. -/
theorem c8_segment_names_distinct (rows : List ScoredRow) :
    ((segmentNamesByCluster rows).map Prod.snd).Pairwise (fun a b => a ≠ b) ∧
    ∀ p ∈ segmentNamesByCluster rows,
      p.2 = computedLabel rows p.1 ∨ p.2 = appendId (computedLabel rows p.1) p.1 := by
  constructor
  · apply resolveNames_distinct
    · intro p hp
      obtain ⟨cl, _, rfl⟩ := List.mem_map.mp hp
      exact computedLabel_mem rows cl
    · rw [List.map_map]
      have hcomp : (Prod.fst ∘ fun cl => (cl, computedLabel rows cl)) = id := by
        funext cl
        rfl
      rw [hcomp, List.map_id]
      exact clusterIds_nodup rows
  · intro p hp
    obtain ⟨q, hq, hfst, hcase⟩ := resolveNames_shape _ [] p hp
    obtain ⟨cl, _, rfl⟩ := List.mem_map.mp hq
    rcases hcase with ⟨he, _⟩ | happ
    · left
      rw [hfst]
      exact he
    · right
      rw [hfst]
      exact happ

/-- C8 witness: a two-cluster run with identical medians collides on one
label and still produces pairwise-distinct names. -/
theorem c8_segment_names_distinct_witness :
    ((segmentNamesByCluster OnlineRetail.scoredExample).map Prod.snd).Pairwise (fun a b => a ≠ b) :=
  (c8_segment_names_distinct OnlineRetail.scoredExample).1

end OnlineRetail
